import Mathlib

/-!
Shallow embedding of `django-enumfields` (files `enumfields/fields.py` and
`enumfields/drf/serializers.py`) and proofs about its value-coercion,
serialization, choice-generation, configuration-check and serializer-mixin
logic.

Python dynamic values that can reach the field API are modelled by the
inductive type `Value` (the `None` object, `str` objects, `int` objects and
enum-member objects).  An enum class is a name together with its list of
canonical members; each member carries a name, a primitive `value` and an
optional `label` (mirroring the data model of the README / spec).  Python
`==` between such values is structural equality within one shape and `False`
across shapes, exactly as for the primitive types involved; enum members
compare equal only to themselves.
-/

set_option autoImplicit false

/-- A primitive storable value: the backing column is a string or integer
column, so member values are strings or integers. -/
inductive Prim where
  | str (s : String)
  | int (n : Int)
deriving DecidableEq, Repr

/-- One enum member: a name, a primitive `value`, and an optional `label`
(display string).  Distinct members of one Python enum class always have
distinct names, so structural equality models Python object identity. -/
structure Member where
  name : String
  value : Prim
  label : Option String
deriving DecidableEq, Repr

/-- An enum class: its name and its canonical members in definition order
(Python iteration order; aliases are not part of iteration). -/
structure EnumClass where
  name : String
  members : List Member
deriving DecidableEq, Repr

/-- A Python value as it can be assigned to the field or come back from the
database: `None`, a `str`, an `int`, or an enum-member object. -/
inductive Value where
  | none
  | vstr (s : String)
  | vint (n : Int)
  | vmem (m : Member)
deriving DecidableEq, Repr

/-- `str` of a primitive: `str` of a Python string is itself, `str` of an
int is its decimal form. -/
def strPrim : Prim → String
  | Prim.str s => s
  | Prim.int n => toString n

/-- Default `str()` of an enum member: `ClassName.MEMBER_NAME`. -/
def strMember (e : EnumClass) (m : Member) : String :=
  e.name ++ "." ++ m.name

/-- `str()` of an enum class: `<enum 'Name'>`. -/
def enumRepr (e : EnumClass) : String :=
  "<enum \x27" ++ e.name ++ "\x27>"

/-- `str()` of a value, used only to build error-message text.  For a
member object we use its bare name (the class prefix of a foreign member is
not tracked by the model; no claim inspects message text). -/
def strValue : Value → String
  | Value.none => "None"
  | Value.vstr s => s
  | Value.vint n => toString n
  | Value.vmem m => m.name

/-- The Python value a stored primitive comes back as from the database. -/
def primToValue : Prim → Value
  | Prim.str s => Value.vstr s
  | Prim.int n => Value.vint n

/-- Python `==` between an arbitrary value and a member's primitive value:
equal only within the same primitive shape. -/
def valueEq : Value → Prim → Bool
  | Value.vstr s, Prim.str t => s == t
  | Value.vint n, Prim.int k => n == k
  | _, _ => false

/-- `self.enum(value)`: Python `EnumMeta.__call__`.  A value that is already
a member object of this class is returned as is; otherwise the member with
`==`-equal primitive value is looked up; otherwise the call fails
(`ValueError`, modelled as `none`). -/
def enumCall (e : EnumClass) (v : Value) : Option Member :=
  match v with
  | Value.vmem m => if m ∈ e.members then some m else none
  | _ => e.members.find? (fun x => valueEq v x.value)

/-- A `django.core.exceptions.ValidationError` as raised by the field:
its message and its `code`. -/
structure ValidationError where
  message : String
  code : String
deriving DecidableEq, Repr

/-- Result of a coercion that either returns a member-or-None or raises a
`ValidationError`. -/
inductive CoerceResult where
  | ok (v : Option Member)
  | error (e : ValidationError)
deriving DecidableEq, Repr

/-- The message text of the invalid-value error:
`'{} is not a valid value for enum {}'.format(value, self.enum)`. -/
def invalidMessage (e : EnumClass) (v : Value) : String :=
  strValue v ++ " is not a valid value for enum " ++ enumRepr e

/-- The string fallback of `to_python`, guarded by `isinstance(value, str)`:
`next(m for m in self.enum if str(m.value) == value or str(m) == value)`,
with exhaustion (`StopIteration`) modelled as `none`. -/
def stringFallback (e : EnumClass) : Value → Option Member
  | Value.vstr s =>
      e.members.find? (fun m => strPrim m.value == s || strMember e m == s)
  | _ => Option.none

/-- `EnumFieldMixin.to_python`:

```python
def to_python(self, value):
    if value is None or value == '':
        return None
    try:
        return self.enum(value)
    except ValueError:
        if isinstance(value, str):
            try:
                return next(m for m in self.enum
                            if str(m.value) == value or str(m) == value)
            except StopIteration:
                pass
        raise ValidationError(..., code="invalid_enum_value")
```
-/
def to_python (e : EnumClass) (v : Value) : CoerceResult :=
  if v = Value.none ∨ v = Value.vstr "" then
    CoerceResult.ok Option.none
  else
    match enumCall e v with
    | some m => CoerceResult.ok (some m)
    | Option.none =>
      match stringFallback e v with
      | some m => CoerceResult.ok (some m)
      | Option.none =>
          CoerceResult.error ⟨invalidMessage e v, "invalid_enum_value"⟩

/-- Result of `get_prep_value`: a primitive-or-None, or a raised
`ValidationError` propagated from `to_python`. -/
inductive PrepResult where
  | ok (v : Option Prim)
  | error (e : ValidationError)
deriving DecidableEq, Repr

/-- `EnumFieldMixin.get_prep_value`:

```python
def get_prep_value(self, value):
    value = self.to_python(value)
    if value is not None:
        value = value.value
    return value
```
-/
def get_prep_value (e : EnumClass) (v : Value) : PrepResult :=
  match to_python e v with
  | CoerceResult.error err => PrepResult.error err
  | CoerceResult.ok Option.none => PrepResult.ok Option.none
  | CoerceResult.ok (some m) => PrepResult.ok (some m.value)

/-- The in-memory value the descriptor stores: `to_python` returned the
`None` object or an enum-member object. -/
def storedValue : Option Member → Value
  | Option.none => Value.none
  | some m => Value.vmem m

/-- `CastOnAssignDescriptor.__set__`:

```python
def __set__(self, obj, value):
    obj.__dict__[self.field.name] = self.field.to_python(value)
```

The instance `__dict__` is modelled as a map from attribute names to
stored values; on success the new dict is returned, on failure the
`ValidationError` propagates. -/
def descriptor_set (e : EnumClass) (fieldName : String)
    (objDict : String → Option Value) (v : Value) :
    Except ValidationError (String → Option Value) :=
  match to_python e v with
  | CoerceResult.error err => Except.error err
  | CoerceResult.ok r =>
      Except.ok (fun k => if k = fieldName then some (storedValue r) else objDict k)

/-- `isinstance(i, self.enum)`: the value is an enum-member object of this
class (every instance of a Python enum class is one of its members). -/
def isEnumInstance (e : EnumClass) : Value → Bool
  | Value.vmem m => decide (m ∈ e.members)
  | _ => false

/-- The value component of one choice pair after `get_choices`:
`i.value if isinstance(i, self.enum) else i`. -/
def choiceValue (e : EnumClass) (v : Value) : Value :=
  match v with
  | Value.vmem m => if m ∈ e.members then primToValue m.value else v
  | _ => v

/-- `EnumFieldMixin.get_choices`: maps the pairs produced by the superclass,
forcing a member value component to the member's primitive `value` and
leaving every other component untouched:

```python
return [
    (i.value if isinstance(i, self.enum) else i, display)
    for (i, display) in super().get_choices(**kwargs)
]
```
-/
def get_choices (e : EnumClass) (superChoices : List (Value × String)) :
    List (Value × String) :=
  superChoices.map (fun p => (choiceValue e p.1, p.2))

/-- Can `value` be matched to some member by identity, by primitive value,
or by string form?  The first two are exactly what `self.enum(value)`
covers; the third is the string fallback of `to_python`. -/
def matchesString (e : EnumClass) : Value → Bool
  | Value.vstr s => e.members.any (fun m => strPrim m.value == s || strMember e m == s)
  | _ => false

/-- Matched by identity, by primitive value, or by string form. -/
def matchable (e : EnumClass) (v : Value) : Bool :=
  (enumCall e v).isSome || matchesString e v

/-- The `EnumField` model field as the configuration check sees it: its
enum, its `max_length` attribute (`Option.none` models a non-`int`
attribute, for the `isinstance(self.max_length, int)` guard) and its
attribute name on the model. -/
structure EnumFieldCls where
  enum : EnumClass
  max_length : Option Int
  name : String
deriving DecidableEq, Repr

/-- A `django.core.checks.Warning` as produced by the length-fit check. -/
structure CheckWarning where
  msg : String
  hint : Option String
  obj : EnumFieldCls
  id : String
deriving DecidableEq, Repr

/-- Python `repr` of a member, used in the check message:
`<ClassName.NAME: value>` with strings quoted. -/
def reprMember (e : EnumClass) (m : Member) : String :=
  "<" ++ e.name ++ "." ++ m.name ++ ": " ++
    (match m.value with
     | Prim.str s => "\x27" ++ s ++ "\x27"
     | Prim.int n => toString n) ++ ">"

/-- `str` of a Python list of members, as interpolated into the message. -/
def reprMemberList (e : EnumClass) (l : List Member) : String :=
  "[" ++ String.intercalate ", " (l.map (reprMember e)) ++ "]"

/-- `EnumField._check_max_length_fit`:

```python
def _check_max_length_fit(self, **kwargs):
    if isinstance(self.max_length, int):
        unfit_values = [e for e in self.enum if len(str(e.value)) > self.max_length]
        if unfit_values:
            fit_max_length = max([len(str(e.value)) for e in self.enum])
            message = (...).format(...)
            hint = "Setting max_length={fit_max_length} will resolve this.".format(...)
            return [checks.Warning(message, hint=hint, obj=self,
                                   id="enumfields.max_length_fit")]
    return []
```
-/
def check_max_length_fit (f : EnumFieldCls) : List CheckWarning :=
  match f.max_length with
  | Option.none => []
  | some ml =>
    let unfit := f.enum.members.filter (fun m => ((strPrim m.value).length : Int) > ml)
    if unfit.isEmpty then []
    else
      let fit_max_length :=
        (f.enum.members.map (fun m => ((strPrim m.value).length : Int))).foldl max 0
      let message :=
        "Values " ++ reprMemberList f.enum unfit ++ " of " ++ enumRepr f.enum ++
          " won\x27t fit in the backing CharField (max_length=" ++ toString ml ++ ")."
      let hint := "Setting max_length=" ++ toString fit_max_length ++ " will resolve this."
      [⟨message, some hint, f, "enumfields.max_length_fit"⟩]

/-- The keyword options relevant to `EnumField.__init__`
(`max_length` and `choices`; absent keys are `Option.none`). -/
structure FieldOptions where
  max_length : Option Int
  choices : Option (List (Value × String))
deriving Repr

/-- An `EnumField` instance after construction. -/
structure EnumFieldInst where
  enum : EnumClass
  max_length : Int
  choices : List (Value × String)
  validators : List String
deriving Repr

/-- The default `choices` computed by `EnumFieldMixin.__init__` when the
option is absent: `[(i, getattr(i, 'label', i.name)) for i in self.enum]`. -/
def defaultChoices (e : EnumClass) : List (Value × String) :=
  e.members.map (fun m => (Value.vmem m, m.label.getD m.name))

/-- `EnumField.__init__`:

```python
def __init__(self, enum, **kwargs):
    kwargs.setdefault("max_length", 10)
    super().__init__(enum, **kwargs)
    self.validators = []
```

`superValidators` models whatever validators the `CharField` machinery
installed during `super().__init__`; the constructor then discards them. -/
def EnumField_init (e : EnumClass) (opts : FieldOptions)
    (superValidators : List String) : EnumFieldInst :=
  let afterSuper : EnumFieldInst :=
    { enum := e
      max_length := opts.max_length.getD 10
      choices := (opts.choices).getD (defaultChoices e)
      validators := superValidators }
  { afterSuper with validators := [] }

/-- A serializer field class, identified by name; `isModelFieldSubclass`
models `issubclass(field_class, rest_framework.fields.ModelField)`. -/
structure SerializerFieldClass where
  className : String
  isModelFieldSubclass : Bool
deriving DecidableEq, Repr

/-- The enum-aware serializer field class `enumfields.drf.fields.EnumField`. -/
def EnumSerializerField : SerializerFieldClass :=
  ⟨"EnumField", false⟩

/-- A keyword-argument value appearing in serializer field kwargs. -/
inductive KwVal where
  | enumV (e : EnumClass)
  | strV (s : String)
deriving DecidableEq, Repr

/-- Serializer field kwargs, as an association list with dict semantics
maintained by `kwSet`. -/
abbrev Kwargs := List (String × KwVal)

/-- Dict assignment: drop any old binding of the key, bind it anew. -/
def kwSet (kw : Kwargs) (k : String) (v : KwVal) : Kwargs :=
  kw.filter (fun p => p.1 != k) ++ [(k, v)]

/-- Dict deletion: `del kwargs[k]`.  Python raises `KeyError` when the key
is absent, modelled as `none`; on a present key the binding is removed. -/
def kwDel (kw : Kwargs) (k : String) : Option Kwargs :=
  if kw.any (fun p => p.1 == k) then some (kw.filter (fun p => p.1 != k))
  else Option.none

/-- Dict lookup. -/
def kwGet (kw : Kwargs) (k : String) : Option KwVal :=
  (kw.find? (fun p => p.1 == k)).map (fun p => p.2)

/-- `dict.update`: assign every pair in order. -/
def kwUpdate (kw opts : Kwargs) : Kwargs :=
  opts.foldl (fun acc p => kwSet acc p.1 p.2) kw

/-- A model field as `build_standard_field` sees it: whether it is an
`isinstance(model_field, BaseEnumField)` hit, and its enum class. -/
structure DjangoModelField where
  isEnumField : Bool
  enum : EnumClass
deriving Repr

/-- `EnumSupportSerializerMixin.build_standard_field`:

```python
def build_standard_field(self, field_name, model_field):
    field_class, field_kwargs = super().build_standard_field(field_name, model_field)
    if isinstance(model_field, BaseEnumField):
        if issubclass(field_class, ModelField):
            del field_kwargs["model_field"]
        field_class = EnumSerializerField
        field_kwargs.update(enum=model_field.enum, **self.enumfield_options)
    return field_class, field_kwargs
```

Two error paths exist in the Python: `del field_kwargs["model_field"]`
raises `KeyError` when that key is absent, and the `update` call raises
`TypeError` when `enumfield_options` itself binds `enum`.  The `KeyError`
propagates here as `none`; the `TypeError` is excluded by hypothesis in the
theorems. -/
def build_standard_field (superResult : SerializerFieldClass × Kwargs)
    (model_field : DjangoModelField) (enumfield_options : Kwargs) :
    Option (SerializerFieldClass × Kwargs) :=
  let field_class := superResult.1
  let field_kwargs := superResult.2
  if model_field.isEnumField then
    match (if field_class.isModelFieldSubclass then kwDel field_kwargs "model_field"
           else some field_kwargs) with
    | Option.none => Option.none
    | some field_kwargs =>
        some (EnumSerializerField,
          kwUpdate (kwSet field_kwargs "enum" (KwVal.enumV model_field.enum))
            enumfield_options)
  else
    some superResult

/-! Concrete enums used by witnesses and counterexamples. -/

/-- A one-member enum, `Color.RED = 1`. -/
def red1 : Member := ⟨"RED", Prim.int 1, Option.none⟩

/-- The `Color` enum class. -/
def colorEnum : EnumClass := ⟨"Color", [red1]⟩

/-- A member whose primitive value is the empty string. -/
def emptyMember : Member := ⟨"EMPTY", Prim.str "", Option.none⟩

/-- An enum with an empty-string-valued member. -/
def emptyEnum : EnumClass := ⟨"Blank", [emptyMember]⟩

/-- A member valued with the string `"1"`. -/
def strOne : Member := ⟨"B", Prim.str "1", Option.none⟩

/-- A member valued with the integer `1`. -/
def intOne : Member := ⟨"A", Prim.int 1, Option.none⟩

/-- An enum whose two members stringify their values identically: the value
of `A` stringifies to `"1"`, which is also the literal value of `B`. -/
def clashEnum : EnumClass := ⟨"Clash", [strOne, intOne]⟩

/-! Helper lemmas. -/

/-- `find?` returns the one element that satisfies the predicate when every
satisfying element of the list is that element. -/
theorem find?_eq_some_of_unique {α : Type _} {p : α → Bool} {l : List α} {m : α}
    (hm : m ∈ l) (hpm : p m = true)
    (huniq : ∀ x ∈ l, p x = true → x = m) :
    l.find? p = some m := by
  induction l with
  | nil => cases hm
  | cons a t ih =>
    by_cases ha : p a = true
    · have hma : a = m := huniq a (List.mem_cons_self a t) ha
      rw [List.find?_cons_of_pos t ha, hma]
    · rw [List.find?_cons_of_neg t ha]
      rcases List.mem_cons.mp hm with h | h
      · exact absurd (h ▸ hpm) ha
      · exact ih h (fun x hx hpx => huniq x (List.mem_cons_of_mem a hx) hpx)

/-- Filtering by a predicate implied by the search predicate does not change
the result of `find?`. -/
theorem find?_filter_of_imp {α : Type _} {p q : α → Bool} (l : List α)
    (h : ∀ x, p x = true → q x = true) :
    (l.filter q).find? p = l.find? p := by
  induction l with
  | nil => rfl
  | cons a t ih =>
    rw [List.filter_cons]
    by_cases hq : q a = true
    · rw [if_pos hq]
      by_cases hp : p a = true
      · rw [List.find?_cons_of_pos _ hp, List.find?_cons_of_pos _ hp]
      · rw [List.find?_cons_of_neg _ hp, List.find?_cons_of_neg _ hp, ih]
    · rw [if_neg hq]
      have hp : ¬ p a = true := fun hpa => hq (h a hpa)
      rw [List.find?_cons_of_neg _ hp, ih]

/-- Python `==` of a string value against a primitive holds exactly for the
equal string primitive. -/
theorem valueEq_vstr_iff (s : String) (p : Prim) :
    valueEq (Value.vstr s) p = true ↔ p = Prim.str s := by
  cases p with
  | str t =>
      simp only [valueEq, beq_iff_eq, Prim.str.injEq]
      exact ⟨fun h => h.symm, fun h => h.symm⟩
  | int n => simp [valueEq]

/-- Python `==` of an int value against a primitive holds exactly for the
equal int primitive. -/
theorem valueEq_vint_iff (n : Int) (p : Prim) :
    valueEq (Value.vint n) p = true ↔ p = Prim.int n := by
  cases p with
  | str t => simp [valueEq]
  | int k =>
      simp only [valueEq, beq_iff_eq, Prim.int.injEq]
      exact ⟨fun h => h.symm, fun h => h.symm⟩

/-- A stored primitive compares `==`-equal exactly to itself. -/
theorem valueEq_primToValue_iff (q p : Prim) :
    valueEq (primToValue q) p = true ↔ p = q := by
  cases q with
  | str s => simpa [primToValue] using valueEq_vstr_iff s p
  | int n => simpa [primToValue] using valueEq_vint_iff n p

/-- A successful `self.enum(value)` call yields a member of the class. -/
theorem enumCall_mem {e : EnumClass} {v : Value} {m : Member}
    (h : enumCall e v = some m) : m ∈ e.members := by
  cases v with
  | vmem m' =>
      simp only [enumCall] at h
      split at h
      · cases h; assumption
      · cases h
  | none => exact List.mem_of_find?_eq_some h
  | vstr s => exact List.mem_of_find?_eq_some h
  | vint n => exact List.mem_of_find?_eq_some h

/-- A successful string fallback yields a member of the class. -/
theorem stringFallback_mem {e : EnumClass} {v : Value} {m : Member}
    (h : stringFallback e v = some m) : m ∈ e.members := by
  cases v with
  | vstr s => exact List.mem_of_find?_eq_some h
  | none => cases h
  | vint n => cases h
  | vmem m' => cases h

/-- `to_python` only ever returns a member of the field's enum class. -/
theorem to_python_ok_mem {e : EnumClass} {v : Value} {m : Member}
    (h : to_python e v = CoerceResult.ok (some m)) : m ∈ e.members := by
  unfold to_python at h
  split at h
  · simp at h
  · split at h
    next m' hec => cases h; exact enumCall_mem hec
    next hec =>
      split at h
      next m' hf => cases h; exact stringFallback_mem hf
      next hf => cases h

/-- `self.enum(m)` succeeds on a member of the class. -/
theorem enumCall_vmem {e : EnumClass} {m : Member} (hm : m ∈ e.members) :
    enumCall e (Value.vmem m) = some m := by
  simp [enumCall, hm]

/-- `to_python` is the identity on members of the class. -/
theorem to_python_vmem {e : EnumClass} {m : Member} (hm : m ∈ e.members) :
    to_python e (Value.vmem m) = CoerceResult.ok (some m) := by
  rw [to_python, if_neg (by simp), enumCall_vmem hm]

/-- Looking up a key just assigned by `kwSet` yields the assigned value. -/
theorem kwGet_kwSet_self (kw : Kwargs) (k : String) (v : KwVal) :
    kwGet (kwSet kw k v) k = some v := by
  unfold kwGet kwSet
  rw [List.find?_append]
  have h1 : (kw.filter (fun p => p.1 != k)).find? (fun p => p.1 == k) = Option.none := by
    rw [List.find?_eq_none]
    intro x hx
    have hne : x.1 ≠ k := by
      have := (List.mem_filter.mp hx).2
      simpa using this
    simp [hne]
  rw [h1]
  simp

/-- Assigning a different key by `kwSet` does not change a lookup. -/
theorem kwGet_kwSet_of_ne (kw : Kwargs) (j k : String) (v : KwVal)
    (hne : j ≠ k) : kwGet (kwSet kw j v) k = kwGet kw k := by
  unfold kwGet kwSet
  rw [List.find?_append]
  have h1 : (kw.filter (fun p => p.1 != j)).find? (fun p => p.1 == k) =
      kw.find? (fun p => p.1 == k) := by
    apply find?_filter_of_imp
    intro x hx
    have hxk : x.1 = k := by simpa using hx
    simp only [hxk, bne_iff_ne, ne_eq]
    exact fun h => hne h.symm
  rw [h1]
  have h2 : List.find? (fun p => p.1 == k) [(j, v)] = Option.none := by
    rw [List.find?_eq_none]
    intro x hx
    have hxe : x = (j, v) := by simpa using hx
    subst hxe
    simp [hne]
  rw [h2]
  cases kw.find? (fun p => p.1 == k) <;> rfl

/-- `dict.update` with pairs that never bind `k` does not change the lookup
of `k`. -/
theorem kwGet_kwUpdate_of_not_key (opts : Kwargs) (kw : Kwargs) (k : String)
    (h : ∀ p ∈ opts, p.1 ≠ k) :
    kwGet (kwUpdate kw opts) k = kwGet kw k := by
  induction opts generalizing kw with
  | nil => rfl
  | cons q t ih =>
    have hstep : kwUpdate kw (q :: t) = kwUpdate (kwSet kw q.1 q.2) t := rfl
    rw [hstep, ih (kwSet kw q.1 q.2) (fun p hp => h p (List.mem_cons_of_mem q hp)),
      kwGet_kwSet_of_ne kw q.1 k q.2 (h q (List.mem_cons_self q t))]

/-! Claim theorems. -/

/-- C1, counterexample: the round trip through the storage primitive is not
the identity on every member.  For a member whose primitive value is the
empty string, `get_prep_value` stores `''`, but `to_python` maps `''` back
to `None`, not to the member. -/
theorem roundtrip_fails_on_empty_value :
    emptyMember ∈ emptyEnum.members ∧
    get_prep_value emptyEnum (Value.vmem emptyMember) =
      PrepResult.ok (some (Prim.str "")) ∧
    to_python emptyEnum (primToValue (Prim.str "")) = CoerceResult.ok Option.none ∧
    CoerceResult.ok (Option.none : Option Member) ≠
      CoerceResult.ok (some emptyMember) := by
  decide

/-- C1 (amended): for every member of the field's enum class whose primitive
value is not the empty string, converting it to its storage primitive with
`get_prep_value` and converting that primitive back with `to_python` yields
the member itself.  (Canonical members of one Python enum class have
pairwise distinct values, which the `Nodup` hypothesis records.) -/
theorem roundtrip_storage_identity (e : EnumClass) (m : Member)
    (hm : m ∈ e.members)
    (hnodup : (e.members.map Member.value).Nodup)
    (hne : m.value ≠ Prim.str "") :
    get_prep_value e (Value.vmem m) = PrepResult.ok (some m.value) ∧
    to_python e (primToValue m.value) = CoerceResult.ok (some m) := by
  have hinj := List.inj_on_of_nodup_map hnodup
  constructor
  · rw [get_prep_value, to_python_vmem hm]
  · have hcond : ¬ (primToValue m.value = Value.none ∨
        primToValue m.value = Value.vstr "") := by
      cases hv : m.value with
      | str s =>
          simp only [primToValue]
          rintro (h | h)
          · cases h
          · apply hne
            rw [hv]
            cases h
            rfl
      | int n => simp [primToValue]
    rw [to_python, if_neg hcond]
    have hfind : e.members.find? (fun x => valueEq (primToValue m.value) x.value) =
        some m := by
      apply find?_eq_some_of_unique hm
      · rw [valueEq_primToValue_iff]
      · intro x hx hpx
        rw [valueEq_primToValue_iff] at hpx
        exact hinj hx hm hpx
    have hec : enumCall e (primToValue m.value) = some m := by
      cases hv : m.value with
      | str s => rw [hv] at hfind; exact hfind
      | int n => rw [hv] at hfind; exact hfind
    rw [hec]

/-- C1 witness: the amended round trip at the concrete enum `Color`. -/
theorem roundtrip_storage_identity_witness :
    get_prep_value colorEnum (Value.vmem red1) = PrepResult.ok (some (Prim.int 1)) ∧
    to_python colorEnum (primToValue (Prim.int 1)) = CoerceResult.ok (some red1) :=
  roundtrip_storage_identity colorEnum red1 (by decide) (by decide) (by decide)

/-- C6: `get_prep_value` of a member of the field's enum class is the
member's primitive `value`, and `get_prep_value` of `None` is `None`. -/
theorem prep_value_primitive (e : EnumClass) (m : Member) (hm : m ∈ e.members) :
    get_prep_value e (Value.vmem m) = PrepResult.ok (some m.value) ∧
    get_prep_value e Value.none = PrepResult.ok Option.none := by
  constructor
  · rw [get_prep_value, to_python_vmem hm]
  · rfl

/-- C6 witness: `get_prep_value` at the concrete enum `Color`. -/
theorem prep_value_primitive_witness :
    get_prep_value colorEnum (Value.vmem red1) = PrepResult.ok (some (Prim.int 1)) ∧
    get_prep_value colorEnum Value.none = PrepResult.ok Option.none :=
  prep_value_primitive colorEnum red1 (by decide)

/-- C8: `to_python` returns `None` without raising for both the input
`None` and the empty string, for every enum class. -/
theorem none_and_empty_coerce_to_none (e : EnumClass) :
    to_python e Value.none = CoerceResult.ok Option.none ∧
    to_python e (Value.vstr "") = CoerceResult.ok Option.none := by
  constructor
  · rfl
  · rw [to_python, if_pos (Or.inr rfl)]

/-- C10: an `EnumField` constructed without an explicit `max_length` option
gets the default column length 10, and its validators list is empty
regardless of the options given. -/
theorem enum_field_init_defaults (e : EnumClass) (opts : FieldOptions)
    (superValidators : List String) :
    (opts.max_length = Option.none →
      (EnumField_init e opts superValidators).max_length = 10) ∧
    (EnumField_init e opts superValidators).validators = [] := by
  constructor
  · intro h
    simp [EnumField_init, h]
  · rfl

/-- C10 witness: construction of a concrete `EnumField` with no options and
a nonempty inherited validators list. -/
theorem enum_field_init_defaults_witness :
    (EnumField_init colorEnum ⟨Option.none, Option.none⟩ ["maxlen"]).max_length = 10 ∧
    (EnumField_init colorEnum ⟨Option.none, Option.none⟩ ["maxlen"]).validators = [] :=
  ⟨(enum_field_init_defaults colorEnum ⟨Option.none, Option.none⟩ ["maxlen"]).1 rfl,
   (enum_field_init_defaults colorEnum ⟨Option.none, Option.none⟩ ["maxlen"]).2⟩

/-- C2, counterexample: a value that is not `None` and matches no member by
identity, primitive value, or string form need not raise: the empty string
matches no member of `Color`, yet `to_python` returns `None` for it. -/
theorem empty_string_skips_validation :
    Value.vstr "" ≠ Value.none ∧
    matchable colorEnum (Value.vstr "") = false ∧
    to_python colorEnum (Value.vstr "") = CoerceResult.ok Option.none := by
  decide

/-- C2 (amended): for every assigned or stored value that is not `None` and
not the empty string and cannot be matched to any enum member by identity,
by primitive value, or by string form, `to_python` raises the validation
error with code `invalid_enum_value`; and every error `to_python` ever
raises carries that code. -/
theorem unmatched_value_raises_invalid_code (e : EnumClass) (v : Value)
    (hn : v ≠ Value.none) (hs : v ≠ Value.vstr "")
    (hum : matchable e v = false) :
    to_python e v = CoerceResult.error ⟨invalidMessage e v, "invalid_enum_value"⟩ ∧
    ∀ w err, to_python e w = CoerceResult.error err → err.code = "invalid_enum_value" := by
  constructor
  · rw [to_python, if_neg (by rintro (h | h) <;> [exact hn h; exact hs h])]
    have hmb := hum
    rw [matchable, Bool.or_eq_false_iff] at hmb
    have hec : enumCall e v = Option.none :=
      Option.not_isSome_iff_eq_none.mp (by rw [hmb.1]; exact fun h => by cases h)
    have hfb : stringFallback e v = Option.none := by
      cases v with
      | vstr s =>
          have hms := hmb.2
          rw [matchesString] at hms
          simp only [stringFallback]
          rw [List.find?_eq_none]
          intro x hx
          have := List.any_eq_false.mp hms x hx
          simpa using this
      | none => rfl
      | vint n => rfl
      | vmem m => rfl
    rw [hec, hfb]
  · intro w err h
    unfold to_python at h
    split at h
    · cases h
    · split at h
      · cases h
      · split at h
        · cases h
        · cases h; rfl

/-- C2 witness: the amended error behavior at the concrete enum `Color` and
the unmatched string `"2"`. -/
theorem unmatched_value_raises_invalid_code_witness :
    to_python colorEnum (Value.vstr "2") =
      CoerceResult.error ⟨invalidMessage colorEnum (Value.vstr "2"), "invalid_enum_value"⟩ :=
  (unmatched_value_raises_invalid_code colorEnum (Value.vstr "2")
    (by decide) (by decide) (by decide)).1

/-- C3, counterexample: a string equal to `str(m.value)` need not resolve to
`m`.  In `Clash`, `str(A.value) = "1"` for the int-valued member `A`, but
`to_python "1"` resolves by value lookup to the distinct str-valued member
`B = "1"`. -/
theorem string_resolution_collision :
    intOne ∈ clashEnum.members ∧
    strPrim intOne.value = "1" ∧
    to_python clashEnum (Value.vstr "1") = CoerceResult.ok (some strOne) ∧
    strOne ≠ intOne := by
  decide

/-- C3 (amended): a nonempty string equal to a member's stringified value or
stringified representation resolves to that member, provided no other member
has that string as its literal string value, its stringified value, or its
stringified representation. -/
theorem string_form_resolves_member (e : EnumClass) (m : Member) (s : String)
    (hm : m ∈ e.members) (hs : s ≠ "")
    (hform : strPrim m.value = s ∨ strMember e m = s)
    (huniq : ∀ m' ∈ e.members, m' ≠ m → strPrim m'.value ≠ s ∧ strMember e m' ≠ s) :
    to_python e (Value.vstr s) = CoerceResult.ok (some m) := by
  rw [to_python, if_neg (by simp [hs])]
  by_cases hv : m.value = Prim.str s
  · have hec : enumCall e (Value.vstr s) = some m := by
      apply find?_eq_some_of_unique hm
      · rw [valueEq_vstr_iff]
        exact hv
      · intro x hx hpx
        rw [valueEq_vstr_iff] at hpx
        by_contra hne
        exact (huniq x hx hne).1 (by rw [hpx]; rfl)
    rw [hec]
  · have hec : enumCall e (Value.vstr s) = Option.none := by
      show e.members.find? (fun x => valueEq (Value.vstr s) x.value) = Option.none
      rw [List.find?_eq_none]
      intro x hx hpx
      rw [valueEq_vstr_iff] at hpx
      by_cases hxm : x = m
      · exact hv (hxm ▸ hpx)
      · exact (huniq x hx hxm).1 (by rw [hpx]; rfl)
    rw [hec]
    have hfb : stringFallback e (Value.vstr s) = some m := by
      apply find?_eq_some_of_unique hm
      · rcases hform with h | h <;> simp [h]
      · intro x hx hpx
        by_contra hne
        simp only [Bool.or_eq_true, beq_iff_eq] at hpx
        rcases hpx with h | h
        · exact (huniq x hx hne).1 h
        · exact (huniq x hx hne).2 h
    rw [hfb]

/-- C3 witness: the amended string resolution at the concrete enum `Color`,
for the stringified value `"1"` and the stringified form `"Color.RED"`. -/
theorem string_form_resolves_member_witness :
    to_python colorEnum (Value.vstr "1") = CoerceResult.ok (some red1) ∧
    to_python colorEnum (Value.vstr "Color.RED") = CoerceResult.ok (some red1) :=
  ⟨string_form_resolves_member colorEnum red1 "1" (by decide) (by decide)
      (Or.inl (by decide)) (by decide),
   string_form_resolves_member colorEnum red1 "Color.RED" (by decide) (by decide)
      (Or.inr (by decide)) (by decide)⟩

/-- C4: after every successful assignment through the descriptor, the value
stored on the instance for the field's attribute name is either `None` or a
member of the field's enum class, never a raw primitive. -/
theorem descriptor_stores_member_or_none (e : EnumClass) (n : String)
    (d : String → Option Value) (v : Value) (d' : String → Option Value)
    (hset : descriptor_set e n d v = Except.ok d')
    (w : Value) (hw : d' n = some w) :
    w = Value.none ∨ ∃ m, m ∈ e.members ∧ w = Value.vmem m := by
  unfold descriptor_set at hset
  cases htp : to_python e v with
  | error err => rw [htp] at hset; cases hset
  | ok r =>
      rw [htp] at hset
      cases hset
      have hw' : some (storedValue r) = some w := by simpa using hw
      cases hw'
      cases r with
      | none => left; rfl
      | some m => right; exact ⟨m, to_python_ok_mem htp, rfl⟩

/-- C4 witness: assigning the raw primitive `1` to a `Color` attribute
stores the member `RED`, which is `None`-or-a-member of `Color`. -/
theorem descriptor_stores_member_or_none_witness :
    Value.vmem red1 = Value.none ∨
    ∃ m, m ∈ colorEnum.members ∧ Value.vmem red1 = Value.vmem m :=
  descriptor_stores_member_or_none colorEnum "color" (fun _ => Option.none)
    (Value.vint 1)
    (fun k => if k = "color" then some (storedValue (some red1))
              else (fun _ => (Option.none : Option Value)) k)
    rfl (Value.vmem red1) (by simp [storedValue])

/-- C5: for an `EnumField` whose integer `max_length` is shorter than the
longest stringified enum value, `_check_max_length_fit` produces exactly one
configuration message, attributed via `obj` to the field itself; a field
whose `max_length` fits all stringified values contributes none. -/
theorem max_length_fit_one_message (f : EnumFieldCls) (ml : Int)
    (hml : f.max_length = some ml) :
    ((∃ m, m ∈ f.enum.members ∧ ((strPrim m.value).length : Int) > ml) →
      ∃ w, check_max_length_fit f = [w] ∧ w.obj = f) ∧
    ((∀ m ∈ f.enum.members, ((strPrim m.value).length : Int) ≤ ml) →
      check_max_length_fit f = []) := by
  constructor
  · rintro ⟨m, hm, hlen⟩
    have hmemf : m ∈ f.enum.members.filter
        (fun m => ((strPrim m.value).length : Int) > ml) := by
      rw [List.mem_filter]
      exact ⟨hm, by simpa using hlen⟩
    have hne : (f.enum.members.filter
        (fun m => ((strPrim m.value).length : Int) > ml)).isEmpty = false := by
      rw [Bool.eq_false_iff]
      intro h
      rw [List.isEmpty_iff] at h
      rw [h] at hmemf
      cases hmemf
    simp only [check_max_length_fit, hml, hne, Bool.false_eq_true, if_false]
    exact ⟨_, rfl, rfl⟩
  · intro hall
    have hnil : f.enum.members.filter
        (fun m => ((strPrim m.value).length : Int) > ml) = [] := by
      rw [List.filter_eq_nil_iff]
      intro a ha
      simp only [decide_eq_true_eq, not_lt]
      exact hall a ha
    simp [check_max_length_fit, hml, hnil]

/-- C5 witness: at the one-member enum `Color`, a field with `max_length = 0`
yields exactly one message attributed to itself, and a field with
`max_length = 10` yields none. -/
theorem max_length_fit_one_message_witness :
    (∃ w, check_max_length_fit ⟨colorEnum, some 0, "f1"⟩ = [w] ∧
      w.obj = ⟨colorEnum, some 0, "f1"⟩) ∧
    check_max_length_fit ⟨colorEnum, some 10, "f3"⟩ = [] :=
  ⟨(max_length_fit_one_message ⟨colorEnum, some 0, "f1"⟩ 0 rfl).1
      ⟨red1, by decide, by decide⟩,
   (max_length_fit_one_message ⟨colorEnum, some 10, "f3"⟩ 10 rfl).2 (by decide)⟩

/-- C9: every choice pair whose value component is a member of the field's
enum class has it replaced by the member's primitive value, and every other
value component and every display component passes through unchanged. -/
theorem choices_primitive_components (e : EnumClass) (sup : List (Value × String))
    (i : Nat) (v : Value) (d : String) (h : sup[i]? = some (v, d)) :
    (∀ m, v = Value.vmem m → m ∈ e.members →
      (get_choices e sup)[i]? = some (primToValue m.value, d)) ∧
    (isEnumInstance e v = false → (get_choices e sup)[i]? = some (v, d)) := by
  have hmap : (get_choices e sup)[i]? = (sup[i]?).map
      (fun p => (choiceValue e p.1, p.2)) := by
    rw [get_choices, List.getElem?_map]
  constructor
  · intro m hv hm
    subst hv
    rw [hmap, h]
    simp [choiceValue, hm]
  · intro hni
    rw [hmap, h]
    have hcv : choiceValue e v = v := by
      cases v with
      | vmem m =>
          simp only [isEnumInstance, decide_eq_false_iff_not] at hni
          simp [choiceValue, hni]
      | none => rfl
      | vstr s => rfl
      | vint n => rfl
    simp [hcv]

/-- C9 witness: the member pair is rewritten to the primitive value, the
blank-choice sentinel pair passes through unchanged. -/
theorem choices_primitive_components_witness :
    (get_choices colorEnum
      [(Value.vmem red1, "Red"), (Value.vstr "", "---------")])[0]? =
      some (primToValue red1.value, "Red") ∧
    (get_choices colorEnum
      [(Value.vmem red1, "Red"), (Value.vstr "", "---------")])[1]? =
      some (Value.vstr "", "---------") :=
  ⟨(choices_primitive_components colorEnum
      [(Value.vmem red1, "Red"), (Value.vstr "", "---------")] 0
      (Value.vmem red1) "Red" rfl).1 red1 rfl (by decide),
   (choices_primitive_components colorEnum
      [(Value.vmem red1, "Red"), (Value.vstr "", "---------")] 1
      (Value.vstr "") "---------" rfl).2 (by decide)⟩

/-- C7: during serializer generation, an enum model field has its serializer
field class replaced by the enum-aware serializer field and the model
field's enum class added under the `enum` kwarg; a non-enum model field
passes the superclass result through unchanged.  Two preconditions ward off
the Python error paths: `enumfield_options` must not itself bind `enum`
(else the `update` call raises `TypeError`), and when the superclass picked
a `ModelField` subclass its kwargs must contain the `model_field` key (the
framework contract; else `del` raises `KeyError`). -/
theorem serializer_swaps_enum_fields (sup : SerializerFieldClass × Kwargs)
    (mf : DjangoModelField) (opts : Kwargs)
    (hopts : ∀ p ∈ opts, p.1 ≠ "enum")
    (hmf : sup.1.isModelFieldSubclass = true →
      "model_field" ∈ sup.2.map Prod.fst) :
    (mf.isEnumField = true →
      ∃ kw, build_standard_field sup mf opts = some (EnumSerializerField, kw) ∧
        kwGet kw "enum" = some (KwVal.enumV mf.enum)) ∧
    (mf.isEnumField = false → build_standard_field sup mf opts = some sup) := by
  constructor
  · intro he
    cases hsub : sup.1.isModelFieldSubclass with
    | true =>
        have hkey : sup.2.any (fun p => p.1 == "model_field") = true := by
          rcases List.mem_map.mp (hmf hsub) with ⟨p, hp, hp1⟩
          exact List.any_eq_true.mpr ⟨p, hp, by simp [hp1]⟩
        have hdel : kwDel sup.2 "model_field" =
            some (sup.2.filter (fun p => p.1 != "model_field")) := by
          rw [kwDel, if_pos hkey]
        refine ⟨kwUpdate (kwSet (sup.2.filter (fun p => p.1 != "model_field"))
          "enum" (KwVal.enumV mf.enum)) opts, ?_, ?_⟩
        · unfold build_standard_field
          simp only [he, hsub, if_true, hdel]
        · rw [kwGet_kwUpdate_of_not_key opts _ "enum" hopts, kwGet_kwSet_self]
    | false =>
        refine ⟨kwUpdate (kwSet sup.2 "enum" (KwVal.enumV mf.enum)) opts, ?_, ?_⟩
        · unfold build_standard_field
          simp only [he, hsub, Bool.false_eq_true, if_false, if_true]
        · rw [kwGet_kwUpdate_of_not_key opts _ "enum" hopts, kwGet_kwSet_self]
  · intro he
    unfold build_standard_field
    simp [he]

/-- C7 witness: a concrete enum model field whose superclass result is a
`ModelField` subclass with the `model_field` kwarg present is swapped to the
enum-aware serializer field with its enum in the kwargs. -/
theorem serializer_swaps_enum_fields_witness :
    ∃ kw, build_standard_field
        (⟨"ModelField", true⟩, [("model_field", KwVal.strV "mf")])
        ⟨true, colorEnum⟩ [] = some (EnumSerializerField, kw) ∧
      kwGet kw "enum" = some (KwVal.enumV colorEnum) :=
  (serializer_swaps_enum_fields
    (⟨"ModelField", true⟩, [("model_field", KwVal.strV "mf")])
    ⟨true, colorEnum⟩ [] (by simp) (fun _ => by simp)).1 rfl
